import Mathlib

/-!
Shallow embedding of `src/reply.py` (class `ChickNorrisTV`): a time-bounded
backtracking search that places typed tiles on a grid, scores complete grids
by BFS connectivity between golden points, and keeps the best-scoring grid.

Modelling conventions:
* Python tuples `(x, y)` indexing the grid become `Coord = Int × Int`
  (neighbour arithmetic can leave the grid before the bounds check runs).
* The numpy grid of strings (`''` = empty) becomes `Coord → Option String`.
* Python dicts (`tiles`, `silver_points`, `tile_costs`) become association
  lists preserving insertion order; assignment to an existing key keeps its
  position (`setKV`), `defaultdict(int)` accumulation appends new keys at the
  end (`bumpKV`).  The set `set(map(tuple, golden_points))` becomes a
  duplicate-free list (`pySet`); a Python set iterates in an unspecified
  hash order, and the statements use the list only through membership,
  `Nodup`, length and pair formation, which do not depend on the order.
* A dict access that would raise `KeyError` is `Err.keyError`; the `while`
  and recursion loops are bounded by explicit fuel, whose exhaustion is the
  distinct outcome `Err.outOfFuel` (never confused with a genuine result).
* `float('-inf')` and the integer scores live in `Score`.
* The wall clock `time.time() - self.start_time > self.time_limit` is
  abstracted as a predicate `tu : Nat → Bool` on an observation counter that
  every recursive `backtrack` call advances; a monotone `tu` models the
  monotone wall clock.
-/

namespace Reply

/-- A grid coordinate `(row, column)` as in the Python tuples. -/
abbrev Coord := Int × Int

/-- Runtime failures: a dict lookup that would raise `KeyError` in Python,
and exhaustion of the fuel bounding loop iterations in this embedding. -/
inductive Err where
  | keyError : Err
  | outOfFuel : Err
deriving DecidableEq

/-- A score: the `float('-inf')` sentinel or an integer value. -/
inductive Score where
  | negInf : Score
  | val : Int → Score
deriving DecidableEq

/-- Python `a > b` for scores (ints and `float('-inf')` compare as usual:
`-inf > x` is false, `n > -inf` is true for an int `n`). -/
def scoreGT : Score → Score → Bool
  | Score.negInf, _ => false
  | Score.val _, Score.negInf => true
  | Score.val a, Score.val b => decide (b < a)

/-- Association-list lookup, modelling Python dict access `d[k]`. -/
def lookupKV {κ α : Type} [DecidableEq κ] : List (κ × α) → κ → Option α
  | [], _ => none
  | (k, v) :: t, k0 => if k = k0 then some v else lookupKV t k0

/-- Association-list assignment to a present key, modelling `d[k] = v` on an
existing key: the key keeps its position in insertion order. -/
def setKV {κ α : Type} [DecidableEq κ] : List (κ × α) → κ → α → List (κ × α)
  | [], _, _ => []
  | (k, v) :: t, k0, v0 => if k = k0 then (k, v0) :: t else (k, v) :: setKV t k0 v0

/-- `defaultdict(int)` accumulation `d[k] += c`: update a present key in
place, append an absent key at the end. -/
def bumpKV (l : List (String × Int)) (k : String) (c : Int) : List (String × Int) :=
  match lookupKV l k with
  | some v => setKV l k (v + c)
  | none => l ++ [(k, c)]

/-- `sum(d.values())`. -/
def sumVals {κ : Type} (l : List (κ × Int)) : Int := (l.map (fun e => e.2)).sum

/-- The static catalog `TILE_DIRECTIONS` of `reply.py`, as a partial map:
`none` models an identifier absent from the catalog (whose Python lookup
raises `KeyError`).  Duplicate offsets in the source lists are preserved. -/
def TILE_DIRECTIONS : String → Option (List (Int × Int))
  | "3" => some [(0, 1), (0, -1)]
  | "5" => some [(1, 1), (-1, -1)]
  | "6" => some [(1, -1), (-1, 1)]
  | "7" => some [(0, 1), (0, -1), (1, -1), (-1, 1), (1, 1), (-1, -1)]
  | "9" => some [(-1, 1), (1, -1)]
  | "96" => some [(1, -1), (-1, 1), (-1, 1), (1, -1)]
  | "A" => some [(-1, -1), (1, 1)]
  | "A5" => some [(-1, -1), (1, 1), (1, 1), (-1, -1)]
  | "B" => some [(0, 1), (0, -1), (-1, -1), (1, 1), (-1, 1), (1, -1)]
  | "C" => some [(1, 0), (-1, 0)]
  | "C3" => some [(0, 1), (0, -1), (1, 0), (-1, 0)]
  | "D" => some [(1, 0), (-1, 0), (-1, 1), (1, -1), (1, 1), (-1, -1)]
  | "E" => some [(-1, -1), (1, 1), (1, -1), (-1, 1), (1, 0), (-1, 0)]
  | "F" => some [(0, 1), (0, -1), (1, -1), (-1, 1), (-1, -1), (1, 1), (1, 0), (-1, 0),
                 (-1, 1), (1, -1), (1, 1), (-1, -1)]
  | _ => none

/-- The mutable state of a `ChickNorrisTV` instance: the constructor
arguments, the grid, and the best-result fields.  A tile inventory entry is
`(identifier, (cost, remaining count))`. -/
@[ext] structure SolverState where
  width : Nat
  height : Nat
  golden_points : List Coord
  silver_points : List (Coord × Int)
  tiles : List (String × (Int × Int))
  grid : Coord → Option String
  best_score : Score
  best_solution : Option (Coord → Option String)

/-- `set(map(tuple, golden_points))`: collapse duplicate coordinates,
keeping one occurrence of each.  (A Python set iterates in an unspecified
hash order; no statement below depends on the order of this list.) -/
def pySet : List Coord → List Coord
  | [] => []
  | c :: rest =>
    let r := pySet rest
    if c ∈ r then r else c :: r

/-- `ChickNorrisTV.__init__`: store the instance data — the golden points
as a set (duplicates collapse), the rest as given — an all-empty grid,
`best_score = -inf`, `best_solution = None`.  (`start_time`/`time_limit`
are abstracted into the clock predicate passed to `backtrack`.)  No
validation of any kind is performed on the supplied tile inventory. -/
def init (width height : Nat) (golden_points : List Coord)
    (silver_points : List (Coord × Int)) (tiles : List (String × (Int × Int))) :
    SolverState :=
  { width := width
    height := height
    golden_points := pySet golden_points
    silver_points := silver_points
    tiles := tiles
    grid := fun _ => none
    best_score := Score.negInf
    best_solution := none }

/-- `is_valid(x, y)`: `0 <= x < height and 0 <= y < width`. -/
def is_valid (st : SolverState) (x y : Int) : Bool :=
  decide (0 ≤ x) && decide (x < (st.height : Int)) &&
  decide (0 ≤ y) && decide (y < (st.width : Int))

/-- The `while queue:` loop of `ChickNorrisTV.bfs`, with fuel bounding the
number of iterations.  Queue entries pair a coordinate with the path that
led to it; the popped coordinate enters `visited` before its tile is read,
and neighbours are generated from the directions of the tile on the
*current* cell (none for an empty cell). -/
def bfsAux (st : SolverState) (e : Coord) :
    Nat → List (Coord × List Coord) → List Coord → Except Err (Option (List Coord))
  | _, [], _ => .ok none
  | 0, _ :: _, _ => .error Err.outOfFuel
  | fuel + 1, (c, path) :: rest, visited =>
    if c = e then .ok (some path)
    else if c ∈ visited then bfsAux st e fuel rest visited
    else
      let visited1 := c :: visited
      match st.grid c with
      | none => bfsAux st e fuel rest visited1
      | some tid =>
        match TILE_DIRECTIONS tid with
        | none => .error Err.keyError
        | some dirs =>
          let nexts := dirs.filterMap (fun d =>
            let n : Coord := (c.1 + d.1, c.2 + d.2)
            if is_valid st n.1 n.2 && decide (¬ n ∈ visited1) then
              some (n, path ++ [c])
            else none)
          bfsAux st e fuel (rest ++ nexts) visited1

/-- `ChickNorrisTV.bfs(start, end)`: FIFO search starting from
`[(start, [])]` with an empty visited set. -/
def bfs (st : SolverState) (fuel : Nat) (s e : Coord) :
    Except Err (Option (List Coord)) :=
  bfsAux st e fuel [(s, [])] []

/-- `itertools.combinations(l, 2)` in list order. -/
def combinations2 {α : Type} : List α → List (α × α)
  | [] => []
  | x :: xs => xs.map (fun y => (x, y)) ++ combinations2 xs

/-- The inner `for x, y in path:` loop of `calculate_score`, threading the
running `path_score`, the `tile_costs` dict and the `visited_tiles` set.
Both branches of the `visited_tiles` test perform the same cost and bonus
updates; only the set insertion differs (as in the source). -/
def scorePath (st : SolverState) :
    List Coord → Int → List (String × Int) → List Coord →
    Except Err (Int × List (String × Int) × List Coord)
  | [], ps, costs, visited => .ok (ps, costs, visited)
  | c :: rest, ps, costs, visited =>
    match st.grid c with
    | none => scorePath st rest ps costs visited
    | some tid =>
      match lookupKV st.tiles tid with
      | none => .error Err.keyError
      | some cc =>
        if c ∈ visited then
          let costs1 := bumpKV costs tid cc.1
          let ps1 := match lookupKV st.silver_points c with
            | some b => ps + b
            | none => ps
          scorePath st rest ps1 costs1 visited
        else
          let costs1 := bumpKV costs tid cc.1
          let visited1 := c :: visited
          let ps1 := match lookupKV st.silver_points c with
            | some b => ps + b
            | none => ps
          scorePath st rest ps1 costs1 visited1

/-- The outer pair loop of `calculate_score`.  Python's `if not path:`
treats both `None` and the empty list as a missing path. -/
def calcScoreAux (st : SolverState) (bf : Nat) :
    List (Coord × Coord) → Int → List (String × Int) → List Coord → Except Err Score
  | [], total, costs, _ => .ok (Score.val (total - sumVals costs))
  | (a, b) :: rest, total, costs, visited =>
    match bfs st bf a b with
    | .error err => .error err
    | .ok none => .ok Score.negInf
    | .ok (some []) => .ok Score.negInf
    | .ok (some (c :: p)) =>
      match scorePath st (c :: p) 0 costs visited with
      | .error err => .error err
      | .ok out => calcScoreAux st bf rest (total + out.1) out.2.1 out.2.2

/-- `ChickNorrisTV.calculate_score`, over all pairs of golden points. -/
def calculate_score (st : SolverState) (bf : Nat) : Except Err Score :=
  calcScoreAux st bf (combinations2 st.golden_points) 0 [] []

/-- Modelled from the spec: the `scorePath` variant with the
`visited_tiles` set "and its branch removed" (§9 dead bookkeeping), used to
compare against the source's `scorePath`. -/
def scorePathS (st : SolverState) :
    List Coord → Int → List (String × Int) → Except Err (Int × List (String × Int))
  | [], ps, costs => .ok (ps, costs)
  | c :: rest, ps, costs =>
    match st.grid c with
    | none => scorePathS st rest ps costs
    | some tid =>
      match lookupKV st.tiles tid with
      | none => .error Err.keyError
      | some cc =>
        let costs1 := bumpKV costs tid cc.1
        let ps1 := match lookupKV st.silver_points c with
          | some b => ps + b
          | none => ps
        scorePathS st rest ps1 costs1

/-- Modelled from the spec: pair loop of the scoring variant without the
visited set. -/
def calcScoreAuxS (st : SolverState) (bf : Nat) :
    List (Coord × Coord) → Int → List (String × Int) → Except Err Score
  | [], total, costs => .ok (Score.val (total - sumVals costs))
  | (a, b) :: rest, total, costs =>
    match bfs st bf a b with
    | .error err => .error err
    | .ok none => .ok Score.negInf
    | .ok (some []) => .ok Score.negInf
    | .ok (some (c :: p)) =>
      match scorePathS st (c :: p) 0 costs with
      | .error err => .error err
      | .ok out => calcScoreAuxS st bf rest (total + out.1) out.2

/-- Modelled from the spec: `calculate_score` with the visited-tiles set
removed (the claimed behaviour-preserving simplification). -/
def calculate_scoreS (st : SolverState) (bf : Nat) : Except Err Score :=
  calcScoreAuxS st bf (combinations2 st.golden_points) 0 []

/-- `ChickNorrisTV.place_tile(x, y, tile_id)`: reject (returning the state
unchanged and `False`) on a golden point, a silver point, an occupied cell,
or a non-positive remaining count; otherwise occupy the cell and decrement
the count.  `none` models the `KeyError` raised when `tile_id` is missing
from `self.tiles` (reachable only past the first three checks). -/
def place_tile (st : SolverState) (x y : Int) (tid : String) :
    Option (SolverState × Bool) :=
  if (x, y) ∈ st.golden_points then some (st, false)
  else if (lookupKV st.silver_points (x, y)).isSome then some (st, false)
  else if (st.grid (x, y)).isSome then some (st, false)
  else
    match lookupKV st.tiles tid with
    | none => none
    | some cc =>
      if cc.2 ≤ 0 then some (st, false)
      else
        some ({ st with
                  grid := Function.update st.grid (x, y) (some tid)
                  tiles := setKV st.tiles tid (cc.1, cc.2 - 1) }, true)

/-- `ChickNorrisTV.remove_tile(x, y)`: no-op on an empty cell; otherwise
empty the cell and increment the count of the tile that was there (`none`
models the `KeyError` when that identifier is missing from `self.tiles`). -/
def remove_tile (st : SolverState) (x y : Int) : Option SolverState :=
  match st.grid (x, y) with
  | none => some st
  | some tid =>
    match lookupKV st.tiles tid with
    | none => none
    | some cc =>
      some { st with
               grid := Function.update st.grid (x, y) none
               tiles := setKV st.tiles tid (cc.1, cc.2 + 1) }

/-- The `for tile_id in self.tiles:` loop inside `backtrack`: try each
inventory key in order; on a successful placement recurse into the next
cell (through `bt`, the recursive call at one less fuel) and then remove
the tile before the next sibling choice. -/
def tileLoop (bt : Nat → Nat → Nat → SolverState → Except Err (SolverState × Nat))
    (x y : Nat) :
    Nat → SolverState → List String → Except Err (SolverState × Nat)
  | tick, st, [] => .ok (st, tick)
  | tick, st, tid :: rest =>
    match place_tile st (x : Int) (y : Int) tid with
    | none => .error Err.keyError
    | some (st1, false) => tileLoop bt x y tick st1 rest
    | some (st1, true) =>
      match bt tick x (y + 1) st1 with
      | .error err => .error err
      | .ok (st2, t2) =>
        match remove_tile st2 (x : Int) (y : Int) with
        | none => .error Err.keyError
        | some st3 => tileLoop bt x y t2 st3 rest

/-- The recursive `backtrack(x, y)` of `ChickNorrisTV.solve`.  `tu` is the
deadline check (`time.time() - start > limit`), read at a fresh observation
index `tick` on entry to each call; `bf` is the fuel handed to each BFS;
`fuel` bounds the recursion depth of this embedding.  Each call: deadline
check, complete-grid evaluation at `x = height`, row advance at
`y = width`, else the empty-cell branch followed by the tile loop. -/
def backtrack (tu : Nat → Bool) (bf : Nat) :
    Nat → Nat → Nat → Nat → SolverState → Except Err (SolverState × Nat)
  | 0, _, _, _, _ => .error Err.outOfFuel
  | fuel + 1, tick, x, y, st =>
    if tu tick then .ok (st, tick + 1)
    else if x = st.height then
      match calculate_score st bf with
      | .error err => .error err
      | .ok sc =>
        if scoreGT sc st.best_score then
          .ok ({ st with best_score := sc, best_solution := some st.grid }, tick + 1)
        else .ok (st, tick + 1)
    else if y = st.width then backtrack tu bf fuel (tick + 1) (x + 1) 0 st
    else
      match backtrack tu bf fuel (tick + 1) x (y + 1) st with
      | .error err => .error err
      | .ok (st1, t1) =>
        tileLoop (backtrack tu bf fuel) x y t1 st1 (st1.tiles.map (fun en => en.1))

/-- `ChickNorrisTV.solve`: run `backtrack(0, 0)` and return
`(best_solution, best_score)`. -/
def solve (tu : Nat → Bool) (bf fuel : Nat) (st : SolverState) :
    Except Err (Option (Coord → Option String) × Score) :=
  match backtrack tu bf fuel 0 0 0 st with
  | .error err => .error err
  | .ok (st1, _) => .ok (st1.best_solution, st1.best_score)

/-- The bonus a coordinate contributes when traversed: its silver value, or
0 when it is not a silver point. -/
def silverBonus (st : SolverState) (c : Coord) : Int :=
  match lookupKV st.silver_points c with
  | some b => b
  | none => 0

/-- Sum of silver bonuses over a path, one contribution per occurrence. -/
def pathBonus (st : SolverState) (p : List Coord) : Int :=
  (p.map (silverBonus st)).sum

/-- The tile cost a coordinate contributes when traversed: the unit cost of
the tile occupying it, or 0 for an empty cell (or an inventory miss). -/
def tileCostAt (st : SolverState) (c : Coord) : Int :=
  match st.grid c with
  | none => 0
  | some tid =>
    match lookupKV st.tiles tid with
    | some cc => cc.1
    | none => 0

/-- Sum of tile costs over a path, one contribution per occurrence. -/
def pathCost (st : SolverState) (p : List Coord) : Int :=
  (p.map (tileCostAt st)).sum

/-- Every remaining inventory count is non-negative. -/
def tilesNonneg (l : List (String × (Int × Int))) : Prop :=
  ∀ en ∈ l, 0 ≤ en.2.2

/-- Decidable equality of `Except` results, so concrete runs of the
embedding can be checked by `decide`. -/
instance {ε α : Type} [DecidableEq ε] [DecidableEq α] : DecidableEq (Except ε α)
  | .error a, .error b =>
    if h : a = b then isTrue (by rw [h]) else isFalse (by intro hc; cases hc; exact h rfl)
  | .error _, .ok _ => isFalse (by intro hc; cases hc)
  | .ok _, .error _ => isFalse (by intro hc; cases hc)
  | .ok a, .ok b =>
    if h : a = b then isTrue (by rw [h]) else isFalse (by intro hc; cases hc; exact h rfl)

/-! ### Association-list lemmas -/

theorem lookupKV_set {κ α : Type} [DecidableEq κ] {l : List (κ × α)} {k : κ} {w : α}
    (v : α) (h : lookupKV l k = some w) : lookupKV (setKV l k v) k = some v := by
  induction l with
  | nil => simp [lookupKV] at h
  | cons hd tl ih =>
    obtain ⟨k1, v1⟩ := hd
    by_cases hk : k1 = k
    · simp [lookupKV, setKV, hk]
    · simp only [lookupKV, setKV, if_neg hk] at h ⊢
      exact ih h

theorem setKV_lookup_self {κ α : Type} [DecidableEq κ] {l : List (κ × α)} {k : κ} {v : α}
    (h : lookupKV l k = some v) : setKV l k v = l := by
  induction l with
  | nil => simp [lookupKV] at h
  | cons hd tl ih =>
    obtain ⟨k1, v1⟩ := hd
    by_cases hk : k1 = k
    · simp only [lookupKV, if_pos hk, Option.some.injEq] at h
      simp [setKV, hk, h]
    · simp only [lookupKV, if_neg hk] at h
      simp [setKV, hk, ih h]

theorem setKV_setKV {κ α : Type} [DecidableEq κ] (l : List (κ × α)) (k : κ) (v w : α) :
    setKV (setKV l k v) k w = setKV l k w := by
  induction l with
  | nil => simp [setKV]
  | cons hd tl ih =>
    obtain ⟨k1, v1⟩ := hd
    by_cases hk : k1 = k
    · simp [setKV, hk]
    · simp [setKV, hk, ih]

theorem setKV_mem {κ α : Type} [DecidableEq κ] {l : List (κ × α)} {k : κ} {v : α}
    {en : κ × α} (h : en ∈ setKV l k v) : en ∈ l ∨ en = (k, v) := by
  induction l with
  | nil => simp [setKV] at h
  | cons hd tl ih =>
    obtain ⟨k1, v1⟩ := hd
    by_cases hk : k1 = k
    · simp only [setKV, if_pos hk, List.mem_cons] at h
      rcases h with h | h
      · exact Or.inr (by rw [h, hk])
      · exact Or.inl (List.mem_cons_of_mem _ h)
    · simp only [setKV, if_neg hk, List.mem_cons] at h
      rcases h with h | h
      · exact Or.inl (by simp [h])
      · rcases ih h with h | h
        · exact Or.inl (List.mem_cons_of_mem _ h)
        · exact Or.inr h

theorem sumVals_set {κ : Type} [DecidableEq κ] {l : List (κ × Int)} {k : κ} {v : Int}
    (w : Int) (h : lookupKV l k = some v) : sumVals (setKV l k w) = sumVals l - v + w := by
  induction l with
  | nil => simp [lookupKV] at h
  | cons hd tl ih =>
    obtain ⟨k1, v1⟩ := hd
    by_cases hk : k1 = k
    · simp only [lookupKV, if_pos hk, Option.some.injEq] at h
      simp [setKV, hk, sumVals, h]
      ring
    · simp only [lookupKV, if_neg hk] at h
      have := ih h
      simp [setKV, hk, sumVals] at this ⊢
      omega

theorem sumVals_bump (l : List (String × Int)) (k : String) (c : Int) :
    sumVals (bumpKV l k c) = sumVals l + c := by
  unfold bumpKV
  cases h : lookupKV l k with
  | none => simp [sumVals]
  | some v =>
    rw [sumVals_set (v + c) h]
    omega

/-! ### `place_tile` and `remove_tile` -/

/-- Characterisation of a successful placement. -/
theorem place_tile_true {st : SolverState} {x y : Int} {tid : String} {st1 : SolverState}
    (h : place_tile st x y tid = some (st1, true)) :
    ∃ cc, lookupKV st.tiles tid = some cc ∧ 0 < cc.2 ∧
      (x, y) ∉ st.golden_points ∧ lookupKV st.silver_points (x, y) = none ∧
      st.grid (x, y) = none ∧
      st1 = { st with
                grid := Function.update st.grid (x, y) (some tid)
                tiles := setKV st.tiles tid (cc.1, cc.2 - 1) } := by
  unfold place_tile at h
  split_ifs at h with h1 h2 h3
  · simp at h
  · simp at h
  · simp at h
  · rcases hl : lookupKV st.tiles tid with _ | cc <;> rw [hl] at h <;> dsimp only at h
    · simp at h
    · split_ifs at h with h4
      · simp at h
      · simp only [Option.some.injEq, Prod.mk.injEq] at h
        refine ⟨cc, rfl, by omega, h1, ?_, ?_, h.1.symm⟩
        · exact Option.not_isSome_iff_eq_none.mp h2
        · exact Option.not_isSome_iff_eq_none.mp h3

/-- A rejected placement returns the state unchanged with `false`. -/
theorem place_tile_false {st : SolverState} {x y : Int} {tid : String} {r : SolverState × Bool}
    (h : place_tile st x y tid = some r) (hf : r.2 = false) : r.1 = st := by
  obtain ⟨r1, r2⟩ := r
  unfold place_tile at h
  split_ifs at h with h1 h2 h3
  · simp only [Option.some.injEq, Prod.mk.injEq] at h
    exact h.1.symm
  · simp only [Option.some.injEq, Prod.mk.injEq] at h
    exact h.1.symm
  · simp only [Option.some.injEq, Prod.mk.injEq] at h
    exact h.1.symm
  · rcases hl : lookupKV st.tiles tid with _ | cc <;> rw [hl] at h <;> dsimp only at h
    · cases h
    · split_ifs at h with h4
      · simp only [Option.some.injEq, Prod.mk.injEq] at h
        exact h.1.symm
      · simp only [Option.some.injEq, Prod.mk.injEq] at h
        rw [← h.2] at hf
        simp at hf

/-! ### Claims C6 and C7 -/

/-- Claim C6: `place_tile(x, y, id)` returns a failure status (`False`) and
leaves the grid and every inventory count unchanged (the whole state is
returned as-is) whenever the coordinate is a golden point, a silver point,
or already occupied, or the tile's remaining count is 0; in each of these
cases the result is a `some` value carrying the boolean, never an
exception. -/
theorem claim_C6 (st : SolverState) (x y : Int) (tid : String) :
    ((x, y) ∈ st.golden_points → place_tile st x y tid = some (st, false)) ∧
    ((lookupKV st.silver_points (x, y)).isSome → place_tile st x y tid = some (st, false)) ∧
    ((st.grid (x, y)).isSome → place_tile st x y tid = some (st, false)) ∧
    (∀ c0 : Int, lookupKV st.tiles tid = some (c0, 0) →
      place_tile st x y tid = some (st, false)) := by
  refine ⟨?_, ?_, ?_, ?_⟩
  · intro h
    unfold place_tile
    rw [if_pos h]
  · intro h
    unfold place_tile
    split_ifs <;> rfl
  · intro h
    unfold place_tile
    split_ifs <;> rfl
  · intro c0 hc
    unfold place_tile
    split_ifs with h1 h2 h3
    · rfl
    · rfl
    · rfl
    · rw [hc]
      simp

theorem claim_C6_witness :
    place_tile (init 1 1 [((0 : Int), (0 : Int))] [] []) 0 0 "C" =
      some (init 1 1 [(0, 0)] [] [], false) ∧
    place_tile (init 1 1 [] [(((0 : Int), (0 : Int)), 5)] []) 0 0 "C" =
      some (init 1 1 [] [((0, 0), 5)] [], false) ∧
    place_tile { init 1 1 [] [] [] with grid := fun _ => some "C" } 0 0 "C" =
      some ({ init 1 1 [] [] [] with grid := fun _ => some "C" }, false) ∧
    place_tile (init 1 1 [] [] [("C", (2, 0))]) 0 0 "C" =
      some (init 1 1 [] [] [("C", (2, 0))], false) :=
  ⟨(claim_C6 _ 0 0 "C").1 (by decide),
   (claim_C6 _ 0 0 "C").2.1 (by decide),
   (claim_C6 _ 0 0 "C").2.2.1 (by decide),
   (claim_C6 _ 0 0 "C").2.2.2 2 (by decide)⟩

/-- Claim C7: on an empty, non-golden, non-silver coordinate with positive
inventory, `place_tile` succeeds (occupying the cell and decrementing the
count), and `place_tile` followed by `remove_tile` at that coordinate
restores the exact original state (inventory count and empty cell
included); `remove_tile` on an empty cell changes nothing. -/
theorem claim_C7 (st : SolverState) (x y : Int) (tid : String) (cc : Int × Int)
    (hg : (x, y) ∉ st.golden_points)
    (hs : lookupKV st.silver_points (x, y) = none)
    (he : st.grid (x, y) = none)
    (ht : lookupKV st.tiles tid = some cc)
    (hpos : 0 < cc.2) :
    place_tile st x y tid =
      some ({ st with
                grid := Function.update st.grid (x, y) (some tid)
                tiles := setKV st.tiles tid (cc.1, cc.2 - 1) }, true) ∧
    (place_tile st x y tid).bind (fun r => remove_tile r.1 x y) = some st ∧
    (∀ st0 : SolverState, ∀ a b : Int, st0.grid (a, b) = none →
      remove_tile st0 a b = some st0) := by
  have c1 : place_tile st x y tid =
      some ({ st with
                grid := Function.update st.grid (x, y) (some tid)
                tiles := setKV st.tiles tid (cc.1, cc.2 - 1) }, true) := by
    unfold place_tile
    rw [if_neg hg, hs, he, ht]
    simp only [Option.isSome_none, Bool.false_eq_true, if_false]
    rw [if_neg (by omega : ¬ cc.2 ≤ 0)]
  refine ⟨c1, ?_, ?_⟩
  · rw [c1]
    show remove_tile _ x y = some st
    unfold remove_tile
    dsimp only
    rw [Function.update_same]
    dsimp only
    rw [lookupKV_set (cc.1, cc.2 - 1) ht]
    dsimp only
    refine congrArg some ?_
    ext1
    · rfl
    · rfl
    · rfl
    · rfl
    · show setKV (setKV st.tiles tid (cc.1, cc.2 - 1)) tid (cc.1, cc.2 - 1 + 1) = st.tiles
      rw [setKV_setKV]
      have h5 : cc.2 - 1 + 1 = cc.2 := by omega
      rw [h5]
      have h6 : (cc.1, cc.2) = cc := rfl
      rw [h6]
      exact setKV_lookup_self ht
    · show Function.update (Function.update st.grid (x, y) (some tid)) (x, y) none = st.grid
      rw [Function.update_idem]
      conv_lhs => rw [← he]
      exact Function.update_eq_self _ _
    · rfl
    · rfl
  · intro st0 a b h0
    unfold remove_tile
    rw [h0]

theorem claim_C7_witness :
    (place_tile (init 2 1 [] [] [("C", ((2 : Int), (3 : Int)))]) 0 0 "C").bind
        (fun r => remove_tile r.1 0 0) =
      some (init 2 1 [] [] [("C", (2, 3))]) ∧
    remove_tile (init 2 1 [] [] [("C", ((2 : Int), (3 : Int)))]) 0 0 =
      some (init 2 1 [] [] [("C", (2, 3))]) :=
  ⟨(claim_C7 (init 2 1 [] [] [("C", (2, 3))]) 0 0 "C" (2, 3)
      (by decide) rfl rfl (by decide) (by decide)).2.1,
   (claim_C7 (init 2 1 [] [] [("C", (2, 3))]) 0 0 "C" (2, 3)
      (by decide) rfl rfl (by decide) (by decide)).2.2
     (init 2 1 [] [] [("C", (2, 3))]) 0 0 rfl⟩

/-! ### BFS lemmas -/

/-- An exhausted queue reports no path, whatever the fuel. -/
theorem bfsAux_nil (st : SolverState) (e : Coord) (f : Nat) (v : List Coord) :
    bfsAux st e f [] v = .ok none := by
  cases f <;> rfl

/-- A search started on an empty cell dies immediately: the start is popped,
found different from the target, visited, and contributes no neighbours
(an empty cell has no direction set), so the queue exhausts. -/
theorem bfs_start_empty (st : SolverState) (a b : Coord) (f : Nat)
    (ha : st.grid a = none) (hne : a ≠ b) : bfs st (f + 1) a b = .ok none := by
  unfold bfs
  rw [bfsAux]
  rw [if_neg hne]
  rw [if_neg (List.not_mem_nil a)]
  dsimp only
  rw [ha]
  exact bfsAux_nil st b f [a]

/-- The start coordinate is popped first and compared with the target
before anything else, so a search from a coordinate to itself returns the
empty path. -/
theorem bfs_self (st : SolverState) (s : Coord) (f : Nat) :
    bfs st (f + 1) s s = .ok (some []) := by
  unfold bfs
  rw [bfsAux]
  rw [if_pos rfl]

/-- Queue invariant for `bfsAux`: any property of `(coordinate, path)`
entries that is preserved by expansion (appending a popped, non-target,
tile-occupied coordinate to the path) holds of the target and the returned
path. -/
theorem bfsAux_inv (st : SolverState) (e : Coord) (Q : Coord × List Coord → Prop)
    (hstep : ∀ c path n, Q (c, path) → c ≠ e → (st.grid c).isSome → Q (n, path ++ [c])) :
    ∀ (fuel : Nat) (q : List (Coord × List Coord)) (visited : List Coord)
      (p : List Coord), (∀ en ∈ q, Q en) → bfsAux st e fuel q visited = .ok (some p) →
      Q (e, p) := by
  intro fuel
  induction fuel with
  | zero =>
    intro q visited p hq hr
    cases q with
    | nil => rw [bfsAux_nil] at hr; cases hr
    | cons hd tl => cases hr
  | succ f ih =>
    intro q visited p hq hr
    cases q with
    | nil => rw [bfsAux_nil] at hr; cases hr
    | cons hd tl =>
      obtain ⟨c, path⟩ := hd
      rw [bfsAux] at hr
      by_cases hce : c = e
      · rw [if_pos hce] at hr
        cases hr
        rw [← hce]
        exact hq (c, p) (List.mem_cons_self _ _)
      · rw [if_neg hce] at hr
        by_cases hv : c ∈ visited
        · rw [if_pos hv] at hr
          exact ih tl visited p (fun en hen => hq en (List.mem_cons_of_mem _ hen)) hr
        · rw [if_neg hv] at hr
          dsimp only at hr
          cases hgc : st.grid c with
          | none =>
            rw [hgc] at hr
            dsimp only at hr
            exact ih tl (c :: visited) p (fun en hen => hq en (List.mem_cons_of_mem _ hen)) hr
          | some tid =>
            rw [hgc] at hr
            dsimp only at hr
            cases hdir : TILE_DIRECTIONS tid with
            | none => rw [hdir] at hr; cases hr
            | some dirs =>
              rw [hdir] at hr
              dsimp only at hr
              refine ih _ _ p ?_ hr
              intro en hen
              rcases List.mem_append.mp hen with hen | hen
              · exact hq en (List.mem_cons_of_mem _ hen)
              · rcases List.mem_filterMap.mp hen with ⟨d, _, hd2⟩
                split_ifs at hd2
                cases hd2
                exact hstep c path _ (hq (c, path) (List.mem_cons_self _ _)) hce
                  (by rw [hgc]; rfl)

/-! ### Claim C1 -/

/-- Claim C1: on any grid where golden coordinates hold no tile (as in
every grid state the search reaches), BFS between two distinct golden
points returns no path, and on any instance with two or more golden points
`calculate_score` returns negative infinity. -/
theorem claim_C1 (st : SolverState) (f bf : Nat)
    (hempty : ∀ c ∈ st.golden_points, st.grid c = none) :
    (∀ a ∈ st.golden_points, ∀ b ∈ st.golden_points, a ≠ b →
      bfs st (f + 1) a b = .ok none) ∧
    (st.golden_points.Nodup → 2 ≤ st.golden_points.length →
      calculate_score st (bf + 1) = .ok Score.negInf) := by
  constructor
  · intro a ha b _ hne
    exact bfs_start_empty st a b f (hempty a ha) hne
  · intro hnd hlen
    rcases hg : st.golden_points with _ | ⟨g0, _ | ⟨g1, rest⟩⟩
    · rw [hg] at hlen; simp at hlen
    · rw [hg] at hlen; simp at hlen
    · have hmem : g0 ∈ st.golden_points := by rw [hg]; exact List.mem_cons_self _ _
      have hne : g0 ≠ g1 := by
        rw [hg] at hnd
        intro heq
        exact (List.nodup_cons.mp hnd).1 (by rw [heq]; exact List.mem_cons_self _ _)
      unfold calculate_score
      rw [hg]
      show calcScoreAux st (bf + 1) (combinations2 (g0 :: g1 :: rest)) 0 [] [] =
        .ok Score.negInf
      rw [show combinations2 (g0 :: g1 :: rest) =
            (g0, g1) :: ((rest.map (fun yy => (g0, yy))) ++ combinations2 (g1 :: rest)) by
          simp [combinations2]]
      rw [calcScoreAux]
      rw [bfs_start_empty st g0 g1 bf (hempty g0 hmem) hne]

theorem claim_C1_witness :
    bfs (init 3 1 [((0 : Int), (0 : Int)), (0, 2)] [] [("C", (1, 5))]) 5 (0, 0) (0, 2) =
      .ok none ∧
    calculate_score (init 3 1 [((0 : Int), (0 : Int)), (0, 2)] [] [("C", (1, 5))]) 5 =
      .ok Score.negInf :=
  ⟨(claim_C1 (init 3 1 [(0, 0), (0, 2)] [] [("C", (1, 5))]) 4 4 (by decide)).1
      (0, 0) (by decide) (0, 2) (by decide) (by decide),
   (claim_C1 (init 3 1 [(0, 0), (0, 2)] [] [("C", (1, 5))]) 4 4 (by decide)).2
      (by decide) (by decide)⟩

/-! ### Claims C10 and C2 -/

/-- Claim C10: a found route is the coordinate sequence from the start up
to but not including the end (the end never occurs in it, and a non-empty
route begins at the start); `bfs(s, s)` returns the empty list on every
grid, and the `if not path:` test of the pair loop of `calculate_score`
treats that empty list as a missing path, so any pair with equal endpoints
makes the loop return negative infinity.  (The program's golden points
form a set, so its own pair loop never receives such a pair.) -/
theorem claim_C10 (st : SolverState) (f : Nat) (a b s : Coord) :
    (∀ fuel p, bfs st fuel a b = .ok (some p) →
      b ∉ p ∧ (p ≠ [] → p.head? = some a)) ∧
    bfs st (f + 1) s s = .ok (some []) ∧
    (∀ rest total costs visited,
      calcScoreAux st (f + 1) ((s, s) :: rest) total costs visited = .ok Score.negInf) := by
  have hpair : ∀ rest total costs visited,
      calcScoreAux st (f + 1) ((s, s) :: rest) total costs visited = .ok Score.negInf := by
    intro rest total costs visited
    rw [calcScoreAux]
    rw [bfs_self st s f]
  refine ⟨?_, bfs_self st s f, hpair⟩
  · intro fuel p hp
    constructor
    · exact (bfsAux_inv st b (fun en => b ∉ en.2)
        (fun c path n hQ hne _ => by
          intro hmem
          rcases List.mem_append.mp hmem with hmem | hmem
          · exact hQ hmem
          · rcases List.mem_singleton.mp hmem with rfl
            exact hne rfl)
        fuel [(a, [])] [] p (by simp) hp)
    · intro hne
      have hQ := bfsAux_inv st b
        (fun en => en.2.head? = some a ∨ (en.1 = a ∧ en.2 = []))
        (fun c path n hQ _ _ => by
          rcases hQ with hh | ⟨hc, hp0⟩
          · left
            cases path with
            | nil => cases hh
            | cons q qs => simpa using hh
          · left
            have hc1 : c = a := hc
            have hp1 : path = [] := hp0
            subst hc1
            subst hp1
            rfl)
        fuel [(a, [])] [] p (by simp) hp
      rcases hQ with hh | ⟨_, hp0⟩
      · exact hh
      · exact absurd hp0 hne

theorem claim_C10_witness :
    (((0 : Int), (2 : Int)) ∉ [((0 : Int), (0 : Int)), (0, 1)] ∧
      [((0 : Int), (0 : Int)), ((0 : Int), (1 : Int))].head? = some ((0 : Int), (0 : Int))) ∧
    bfs
        { init 3 1 [((0 : Int), (0 : Int)), (0, 2)] [((0, 1), 7)] [("C3", (1, 5))] with
            grid := fun c => if c = (0, 0) ∨ c = (0, 1) then some "C3" else none }
        1 (0, 0) (0, 0) =
      .ok (some []) ∧
    calcScoreAux
        { init 3 1 [((0 : Int), (0 : Int)), (0, 2)] [((0, 1), 7)] [("C3", (1, 5))] with
            grid := fun c => if c = (0, 0) ∨ c = (0, 1) then some "C3" else none }
        1 [(((0 : Int), (0 : Int)), ((0 : Int), (0 : Int)))] 0 [] [] =
      .ok Score.negInf :=
  ⟨⟨((claim_C10
        { init 3 1 [(0, 0), (0, 2)] [((0, 1), 7)] [("C3", (1, 5))] with
            grid := fun c => if c = (0, 0) ∨ c = (0, 1) then some "C3" else none }
        0 (0, 0) (0, 2) (0, 0)).1 3 [(0, 0), (0, 1)] (by decide)).1,
    ((claim_C10
        { init 3 1 [(0, 0), (0, 2)] [((0, 1), 7)] [("C3", (1, 5))] with
            grid := fun c => if c = (0, 0) ∨ c = (0, 1) then some "C3" else none }
        0 (0, 0) (0, 2) (0, 0)).1 3 [(0, 0), (0, 1)] (by decide)).2 (by decide)⟩,
   (claim_C10
      { init 3 1 [(0, 0), (0, 2)] [((0, 1), 7)] [("C3", (1, 5))] with
          grid := fun c => if c = (0, 0) ∨ c = (0, 1) then some "C3" else none }
      0 (0, 0) (0, 2) (0, 0)).2.1,
   (claim_C10
      { init 3 1 [(0, 0), (0, 2)] [((0, 1), 7)] [("C3", (1, 5))] with
          grid := fun c => if c = (0, 0) ∨ c = (0, 1) then some "C3" else none }
      0 (0, 0) (0, 2) (0, 0)).2.2 [] 0 [] []⟩

/-- Every coordinate of a returned BFS path holds a tile: paths accumulate
exactly the coordinates that were expanded, and only tile-occupied cells
expand. -/
theorem bfs_path_tiled (st : SolverState) (fuel : Nat) (a b : Coord) (p : List Coord)
    (hp : bfs st fuel a b = .ok (some p)) : ∀ c ∈ p, (st.grid c).isSome :=
  bfsAux_inv st b (fun en => ∀ c ∈ en.2, (st.grid c).isSome)
    (fun c path n hQ _ hsome => by
      intro d hd
      rcases List.mem_append.mp hd with hd | hd
      · exact hQ d hd
      · rcases List.mem_singleton.mp hd with rfl
        exact hsome)
    fuel [(a, [])] [] p (by simp) hp

/-- The scoring loop over a path of tile-occupied coordinates adds, to the
running path score, exactly the silver bonus of every coordinate occurrence
on the path. -/
theorem scorePath_bonus (st : SolverState) :
    ∀ (p : List Coord) (ps : Int) (costs : List (String × Int)) (visited : List Coord)
      (out : Int × List (String × Int) × List Coord),
      (∀ c ∈ p, (st.grid c).isSome) → scorePath st p ps costs visited = .ok out →
      out.1 = ps + pathBonus st p := by
  intro p
  induction p with
  | nil =>
    intro ps costs visited out _ hr
    cases hr
    simp [pathBonus]
  | cons c rest ih =>
    intro ps costs visited out hall hr
    rcases Option.isSome_iff_exists.mp (hall c (List.mem_cons_self _ _)) with ⟨tid, hgc⟩
    rw [scorePath, hgc] at hr
    dsimp only at hr
    cases hlt : lookupKV st.tiles tid with
    | none => rw [hlt] at hr; cases hr
    | some cc =>
      rw [hlt] at hr
      dsimp only at hr
      have hrest : ∀ d ∈ rest, (st.grid d).isSome :=
        fun d hd => hall d (List.mem_cons_of_mem _ hd)
      have hbonus : pathBonus st (c :: rest) = silverBonus st c + pathBonus st rest := by
        simp [pathBonus]
      by_cases hv : c ∈ visited
      · rw [if_pos hv] at hr
        have := ih _ _ _ _ hrest hr
        rw [this, hbonus]
        unfold silverBonus
        cases lookupKV st.silver_points c <;> dsimp only <;> ring
      · rw [if_neg hv] at hr
        have := ih _ _ _ _ hrest hr
        rw [this, hbonus]
        unfold silverBonus
        cases lookupKV st.silver_points c <;> dsimp only <;> ring

/-- Claim C2: along every path computed by BFS, every coordinate holds a
tile (so the bonus branch is reached for it), and the path score produced
by the scoring loop equals the sum of the silver bonuses of the visited
coordinates, one contribution per occurrence — in particular every silver
coordinate on the path adds its bonus to the running total. -/
theorem claim_C2 (st : SolverState) (fuel : Nat) (a b : Coord) (p : List Coord)
    (costs : List (String × Int)) (visited : List Coord)
    (out : Int × List (String × Int) × List Coord)
    (hp : bfs st fuel a b = .ok (some p))
    (hs : scorePath st p 0 costs visited = .ok out) :
    (∀ c ∈ p, (st.grid c).isSome) ∧ out.1 = pathBonus st p := by
  have htiled := bfs_path_tiled st fuel a b p hp
  refine ⟨htiled, ?_⟩
  have := scorePath_bonus st p 0 costs visited out htiled hs
  omega

theorem claim_C2_witness :
    ((7 : Int), ([("C3", (2 : Int))], [((0 : Int), (1 : Int)), ((0 : Int), (0 : Int))])).1 =
      pathBonus
        { init 3 1 [((0 : Int), (0 : Int)), (0, 2)] [((0, 1), 7)] [("C3", (1, 5))] with
            grid := fun c => if c = (0, 0) ∨ c = (0, 1) then some "C3" else none }
        [(0, 0), (0, 1)] :=
  (claim_C2
    { init 3 1 [(0, 0), (0, 2)] [((0, 1), 7)] [("C3", (1, 5))] with
        grid := fun c => if c = (0, 0) ∨ c = (0, 1) then some "C3" else none }
    3 (0, 0) (0, 2) [(0, 0), (0, 1)] [] []
    (7, ([("C3", 2)], [(0, 1), (0, 0)])) (by decide) (by decide)).2

/-! ### Claim C9 -/

/-- The scoring loop without the visited set computes the same score and
cost ledger as the source loop, for every state of the visited set: both
branches of the source's visited test perform identical updates. -/
theorem scorePathS_eq (st : SolverState) (p : List Coord) :
    ∀ (ps : Int) (costs : List (String × Int)) (visited : List Coord),
      scorePathS st p ps costs =
        Except.map (fun out => (out.1, out.2.1)) (scorePath st p ps costs visited) := by
  induction p with
  | nil =>
    intro ps costs visited
    rfl
  | cons c rest ih =>
    intro ps costs visited
    rw [scorePath, scorePathS]
    cases hgc : st.grid c with
    | none => exact ih ps costs visited
    | some tid =>
      dsimp only
      cases hlt : lookupKV st.tiles tid with
      | none => rfl
      | some cc =>
        dsimp only
        by_cases hv : c ∈ visited
        · rw [if_pos hv]
          exact ih _ _ _
        · rw [if_neg hv]
          exact ih _ _ _

/-- Pair-loop counterpart of `scorePathS_eq`. -/
theorem calcScoreAuxS_eq (st : SolverState) (bf : Nat) (pairs : List (Coord × Coord)) :
    ∀ (total : Int) (costs : List (String × Int)) (visited : List Coord),
      calcScoreAuxS st bf pairs total costs = calcScoreAux st bf pairs total costs visited := by
  induction pairs with
  | nil =>
    intro total costs visited
    rfl
  | cons ab rest ih =>
    intro total costs visited
    obtain ⟨a, b⟩ := ab
    rw [calcScoreAux, calcScoreAuxS]
    cases bfs st bf a b with
    | error err => rfl
    | ok op =>
      cases op with
      | none => rfl
      | some l =>
        cases l with
        | nil => rfl
        | cons c p =>
          dsimp only
          rw [scorePathS_eq st (c :: p) 0 costs visited]
          cases scorePath st (c :: p) 0 costs visited with
          | error err => rfl
          | ok out =>
            dsimp only [Except.map]
            exact ih _ _ _

/-- The cost ledger grows by the cost of every tile-occupied coordinate
occurrence on the path, with no deduplication. -/
theorem scorePath_cost (st : SolverState) :
    ∀ (p : List Coord) (ps : Int) (costs : List (String × Int)) (visited : List Coord)
      (out : Int × List (String × Int) × List Coord),
      scorePath st p ps costs visited = .ok out →
      sumVals out.2.1 = sumVals costs + pathCost st p := by
  intro p
  induction p with
  | nil =>
    intro ps costs visited out hr
    cases hr
    simp [pathCost]
  | cons c rest ih =>
    intro ps costs visited out hr
    rw [scorePath] at hr
    cases hgc : st.grid c with
    | none =>
      rw [hgc] at hr
      dsimp only at hr
      have hrec := ih _ _ _ _ hr
      have htc0 : tileCostAt st c = 0 := by
        unfold tileCostAt
        rw [hgc]
      have hzero : pathCost st (c :: rest) = pathCost st rest := by
        unfold pathCost
        rw [List.map_cons, List.sum_cons, htc0]
        ring
      rw [hrec, hzero]
    | some tid =>
      rw [hgc] at hr
      dsimp only at hr
      cases hlt : lookupKV st.tiles tid with
      | none => rw [hlt] at hr; cases hr
      | some cc =>
        rw [hlt] at hr
        dsimp only at hr
        have htc : tileCostAt st c = cc.1 := by
          unfold tileCostAt
          rw [hgc]
          dsimp only
          rw [hlt]
        have hcost : pathCost st (c :: rest) = cc.1 + pathCost st rest := by
          unfold pathCost
          rw [List.map_cons, List.sum_cons, htc]
        by_cases hv : c ∈ visited
        · rw [if_pos hv] at hr
          have := ih _ _ _ _ hr
          rw [this, sumVals_bump, hcost]
          ring
        · rw [if_neg hv] at hr
          have := ih _ _ _ _ hr
          rw [this, sumVals_bump, hcost]
          ring

/-- Claim C9: the `visited_tiles` set is dead bookkeeping — the scoring
function equals the variant with the set and its branch removed — and each
tile-occupied coordinate occurrence contributes its tile cost to the
ledger separately, with no deduplication. -/
theorem claim_C9 (st : SolverState) (bf : Nat) :
    calculate_score st bf = calculate_scoreS st bf ∧
    (∀ (p : List Coord) (ps : Int) (costs : List (String × Int)) (visited : List Coord)
       (out : Int × List (String × Int) × List Coord),
       scorePath st p ps costs visited = .ok out →
       sumVals out.2.1 = sumVals costs + pathCost st p) := by
  constructor
  · unfold calculate_score calculate_scoreS
    exact (calcScoreAuxS_eq st bf (combinations2 st.golden_points) 0 [] []).symm
  · exact scorePath_cost st

theorem claim_C9_witness :
    calculate_score
        { init 3 1 [((0 : Int), (0 : Int)), (0, 2)] [((0, 1), 7)] [("C3", (1, 5))] with
            grid := fun c => if c = (0, 0) ∨ c = (0, 1) then some "C3" else none } 4 =
      calculate_scoreS
        { init 3 1 [((0 : Int), (0 : Int)), (0, 2)] [((0, 1), 7)] [("C3", (1, 5))] with
            grid := fun c => if c = (0, 0) ∨ c = (0, 1) then some "C3" else none } 4 ∧
    sumVals ((7 : Int), ([("C3", (2 : Int))], [((0 : Int), (1 : Int)), ((0 : Int), (0 : Int))])).2.1 =
      sumVals ([] : List (String × Int)) +
        pathCost
          { init 3 1 [((0 : Int), (0 : Int)), (0, 2)] [((0, 1), 7)] [("C3", (1, 5))] with
              grid := fun c => if c = (0, 0) ∨ c = (0, 1) then some "C3" else none }
          [(0, 0), (0, 1)] :=
  ⟨(claim_C9
      { init 3 1 [(0, 0), (0, 2)] [((0, 1), 7)] [("C3", (1, 5))] with
          grid := fun c => if c = (0, 0) ∨ c = (0, 1) then some "C3" else none } 4).1,
   (claim_C9
      { init 3 1 [(0, 0), (0, 2)] [((0, 1), 7)] [("C3", (1, 5))] with
          grid := fun c => if c = (0, 0) ∨ c = (0, 1) then some "C3" else none } 4).2
     [(0, 0), (0, 1)] 0 [] [] (7, ([("C3", 2)], [(0, 1), (0, 0)])) (by decide)⟩

/-! ### Claims C4 and C5 -/

/-- A monotone deadline flag stays raised. -/
theorem tu_mono (tu : Nat → Bool) (hmono : ∀ n, tu n = true → tu (n + 1) = true)
    {t t0 : Nat} (h : tu t = true) (hle : t ≤ t0) : tu t0 = true := by
  induction hle with
  | refl => exact h
  | step _ ih => exact hmono _ ih

/-- `place_tile` never touches the best-result fields. -/
theorem place_tile_best (st : SolverState) {a b : Int} {tid : String}
    {r : SolverState × Bool} (h : place_tile st a b tid = some r) :
    r.1.best_solution = st.best_solution ∧ r.1.best_score = st.best_score := by
  obtain ⟨r1, r2⟩ := r
  cases r2 with
  | false =>
    rw [place_tile_false h rfl]
    exact ⟨rfl, rfl⟩
  | true =>
    rcases place_tile_true h with ⟨cc, _, _, _, _, _, hst⟩
    rw [hst]
    exact ⟨rfl, rfl⟩

/-- `remove_tile` never touches the best-result fields. -/
theorem remove_tile_best (st : SolverState) {a b : Int} {st2 : SolverState}
    (h : remove_tile st a b = some st2) :
    st2.best_solution = st.best_solution ∧ st2.best_score = st.best_score := by
  unfold remove_tile at h
  cases hg : st.grid (a, b) <;> rw [hg] at h <;> dsimp only at h
  · cases h
    exact ⟨rfl, rfl⟩
  · cases hl : lookupKV st.tiles _ <;> rw [hl] at h <;> dsimp only at h
    · cases h
    · cases h
      exact ⟨rfl, rfl⟩

/-- Claim C4: once the deadline flag is raised (and, the wall clock being
monotone, it stays raised), every backtracking call returns its state
unchanged immediately — no placement, no evaluation, no error — and
`solve` returns whatever best solution and score are recorded, which on a
fresh instance are `None` and negative infinity. -/
theorem claim_C4 (tu : Nat → Bool) (bf f : Nat) (st : SolverState) (x y t t0 : Nat)
    (hmono : ∀ n, tu n = true → tu (n + 1) = true) :
    (tu t = true → t ≤ t0 → backtrack tu bf (f + 1) t0 x y st = .ok (st, t0 + 1)) ∧
    (tu 0 = true → solve tu bf (f + 1) st = .ok (st.best_solution, st.best_score)) ∧
    (∀ (w hh : Nat) (g : List Coord) (sp : List (Coord × Int))
       (tl : List (String × (Int × Int))),
       (init w hh g sp tl).best_solution = none ∧
       (init w hh g sp tl).best_score = Score.negInf) := by
  have hret : ∀ (t1 x1 y1 : Nat), tu t1 = true →
      backtrack tu bf (f + 1) t1 x1 y1 st = .ok (st, t1 + 1) := by
    intro t1 x1 y1 ht
    rw [backtrack, if_pos ht]
  refine ⟨?_, ?_, ?_⟩
  · intro ht hle
    exact hret t0 x y (tu_mono tu hmono ht hle)
  · intro h0
    unfold solve
    rw [hret 0 0 0 h0]
  · intro w hh g sp tl
    exact ⟨rfl, rfl⟩

theorem claim_C4_witness :
    backtrack (fun _ => true) 2 3 5 0 0 (init 1 1 [] [] []) =
      .ok (init 1 1 [] [] [], 6) ∧
    solve (fun _ => true) 2 3 (init 1 1 [] [] []) = .ok (none, Score.negInf) :=
  ⟨(claim_C4 (fun _ => true) 2 2 (init 1 1 [] [] []) 0 0 0 5 (fun _ _ => rfl)).1
      rfl (by omega),
   (claim_C4 (fun _ => true) 2 2 (init 1 1 [] [] []) 0 0 0 5 (fun _ _ => rfl)).2.1 rfl⟩

/-- Claim C5: at a fully decided grid (row index = height) the best record
is replaced exactly when the evaluated score is strictly greater than the
recorded best, and the snapshot stored is the grid value at that moment;
subsequent `place_tile`/`remove_tile` mutations of the live grid never
change the recorded best solution or best score. -/
theorem claim_C5 (tu : Nat → Bool) (bf f tick y : Nat) (st : SolverState) (sc : Score)
    (hTime : tu tick = false)
    (hScore : calculate_score st bf = .ok sc) :
    backtrack tu bf (f + 1) tick st.height y st =
      .ok ((if scoreGT sc st.best_score = true then
              { st with best_score := sc, best_solution := some st.grid }
            else st), tick + 1) ∧
    (∀ (a b : Int) (tid : String) (r : SolverState × Bool),
      place_tile st a b tid = some r →
      r.1.best_solution = st.best_solution ∧ r.1.best_score = st.best_score) ∧
    (∀ (a b : Int) (st2 : SolverState),
      remove_tile st a b = some st2 →
      st2.best_solution = st.best_solution ∧ st2.best_score = st.best_score) := by
  refine ⟨?_, fun a b tid r h => place_tile_best st h,
    fun a b st2 h => remove_tile_best st h⟩
  rw [backtrack]
  rw [if_neg (by rw [hTime]; exact Bool.false_ne_true)]
  rw [if_pos rfl]
  rw [hScore]
  dsimp only
  split_ifs <;> rfl

theorem claim_C5_witness :
    backtrack (fun _ => false) 1 1 0 (init 1 1 [] [] [("C", ((2 : Int), (1 : Int)))]).height 7
        (init 1 1 [] [] [("C", (2, 1))]) =
      .ok ((if scoreGT (Score.val 0) (init 1 1 [] [] [("C", (2, 1))]).best_score = true then
              { init 1 1 [] [] [("C", ((2 : Int), (1 : Int)))] with
                  best_score := Score.val 0,
                  best_solution := some (init 1 1 [] [] [("C", (2, 1))]).grid }
            else init 1 1 [] [] [("C", (2, 1))]), 0 + 1) ∧
    ((init 1 1 [] [] [("C", ((2 : Int), (1 : Int)))]).best_solution =
        (init 1 1 [] [] [("C", (2, 1))]).best_solution ∧
      (init 1 1 [] [] [("C", (2, 1))]).best_score =
        (init 1 1 [] [] [("C", (2, 1))]).best_score) :=
  ⟨(claim_C5 (fun _ => false) 1 0 0 7 (init 1 1 [] [] [("C", (2, 1))])
      (Score.val 0) rfl (by decide)).1,
   (claim_C5 (fun _ => false) 1 0 0 7 (init 1 1 [] [] [("C", (2, 1))])
      (Score.val 0) rfl (by decide)).2.2 0 0 (init 1 1 [] [] [("C", (2, 1))]) rfl⟩

/-! ### Claim C8 -/

/-- A key that looks up to a value is present as a pair in the list. -/
theorem lookupKV_mem {κ α : Type} [DecidableEq κ] {l : List (κ × α)} {k : κ} {v : α}
    (h : lookupKV l k = some v) : (k, v) ∈ l := by
  induction l with
  | nil => cases h
  | cons hd tl ih =>
    obtain ⟨k1, v1⟩ := hd
    by_cases hk : k1 = k
    · rw [lookupKV, if_pos hk] at h
      cases h
      rw [← hk]
      exact List.mem_cons_self _ _
    · rw [lookupKV, if_neg hk] at h
      exact List.mem_cons_of_mem _ (ih h)

/-- Undoing a placement through any intermediate state with the same grid
and inventory restores the original grid and inventory exactly. -/
theorem place_remove_restore {st st1 st2 st3 : SolverState} {x y : Int} {tid : String}
    (hpl : place_tile st x y tid = some (st1, true))
    (hg : st2.grid = st1.grid) (ht : st2.tiles = st1.tiles)
    (hrm : remove_tile st2 x y = some st3) :
    st3.grid = st.grid ∧ st3.tiles = st.tiles := by
  rcases place_tile_true hpl with ⟨cc, hlt, hpos, _, _, hge, hst1⟩
  unfold remove_tile at hrm
  rw [hg, hst1] at hrm
  dsimp only at hrm
  rw [Function.update_same] at hrm
  dsimp only at hrm
  rw [ht, hst1] at hrm
  dsimp only at hrm
  rw [lookupKV_set (cc.1, cc.2 - 1) hlt] at hrm
  dsimp only at hrm
  cases hrm
  constructor
  · show Function.update (Function.update st.grid (x, y) (some tid)) (x, y) none = st.grid
    rw [Function.update_idem]
    conv_lhs => rw [← hge]
    exact Function.update_eq_self _ _
  · show setKV (setKV st.tiles tid (cc.1, cc.2 - 1)) tid (cc.1, cc.2 - 1 + 1) = st.tiles
    rw [setKV_setKV]
    have h5 : cc.2 - 1 + 1 = cc.2 := by omega
    rw [h5]
    have h6 : (cc.1, cc.2) = cc := rfl
    rw [h6]
    exact setKV_lookup_self hlt

/-- The tile loop restores the grid and inventory it started from,
provided the recursive call it wraps does. -/
theorem tileLoop_preserves
    (bt : Nat → Nat → Nat → SolverState → Except Err (SolverState × Nat)) (x y : Nat)
    (hbt : ∀ (tick : Nat) (stA : SolverState) (outA : SolverState × Nat),
      bt tick x (y + 1) stA = .ok outA → outA.1.grid = stA.grid ∧ outA.1.tiles = stA.tiles) :
    ∀ (ids : List String) (tick : Nat) (st : SolverState) (out : SolverState × Nat),
      tileLoop bt x y tick st ids = .ok out →
      out.1.grid = st.grid ∧ out.1.tiles = st.tiles := by
  intro ids
  induction ids with
  | nil =>
    intro tick st out h
    cases h
    exact ⟨rfl, rfl⟩
  | cons tid rest ih =>
    intro tick st out h
    rw [tileLoop] at h
    cases hpl : place_tile st (x : Int) (y : Int) tid with
    | none => rw [hpl] at h; cases h
    | some r =>
      obtain ⟨st1, b⟩ := r
      rw [hpl] at h
      cases b with
      | false =>
        dsimp only at h
        have hst1 : st1 = st := place_tile_false hpl rfl
        rw [hst1] at h
        exact ih tick st out h
      | true =>
        dsimp only at h
        cases hb1 : bt tick x (y + 1) st1 with
        | error err => rw [hb1] at h; cases h
        | ok r2 =>
          obtain ⟨st2, t2⟩ := r2
          rw [hb1] at h
          dsimp only at h
          cases hrm : remove_tile st2 (x : Int) (y : Int) with
          | none => rw [hrm] at h; cases h
          | some st3 =>
            rw [hrm] at h
            dsimp only at h
            have hmid := hbt tick st1 (st2, t2) hb1
            have hres := place_remove_restore hpl hmid.1 hmid.2 hrm
            have hrec := ih t2 st3 out h
            exact ⟨hrec.1.trans hres.1, hrec.2.trans hres.2⟩

/-- Backtracking always restores the grid and inventory it was called
with, whatever the deadline behaviour and the result. -/
theorem backtrack_preserves (tu : Nat → Bool) (bf : Nat) :
    ∀ (fuel tick x y : Nat) (st : SolverState) (out : SolverState × Nat),
      backtrack tu bf fuel tick x y st = .ok out →
      out.1.grid = st.grid ∧ out.1.tiles = st.tiles := by
  intro fuel
  induction fuel with
  | zero =>
    intro tick x y st out h
    cases h
  | succ f ih =>
    intro tick x y st out h
    rw [backtrack] at h
    by_cases htu : tu tick = true
    · rw [if_pos htu] at h
      cases h
      exact ⟨rfl, rfl⟩
    · rw [if_neg htu] at h
      by_cases hx : x = st.height
      · rw [if_pos hx] at h
        cases hcs : calculate_score st bf with
        | error err => rw [hcs] at h; cases h
        | ok sc =>
          rw [hcs] at h
          dsimp only at h
          split_ifs at h <;> cases h <;> exact ⟨rfl, rfl⟩
      · rw [if_neg hx] at h
        by_cases hy : y = st.width
        · rw [if_pos hy] at h
          exact ih (tick + 1) (x + 1) 0 st out h
        · rw [if_neg hy] at h
          cases hb1 : backtrack tu bf f (tick + 1) x (y + 1) st with
          | error err => rw [hb1] at h; cases h
          | ok r1 =>
            obtain ⟨st1, t1⟩ := r1
            rw [hb1] at h
            dsimp only at h
            have h1 := ih (tick + 1) x (y + 1) st (st1, t1) hb1
            have h2 := tileLoop_preserves (backtrack tu bf f) x y
              (fun tick2 stA outA hA => ih tick2 x (y + 1) stA outA hA)
              (st1.tiles.map (fun en => en.1)) t1 st1 out h
            exact ⟨h2.1.trans h1.1, h2.2.trans h1.2⟩

/-- Claim C8: every successful placement made by the search is undone
before the sibling branch runs, so any terminating backtracking call hands
back exactly the grid and inventory it received — from a fresh instance,
an entirely empty grid and the initial counts — and placements and
removals keep every inventory count non-negative. -/
theorem claim_C8 (tu : Nat → Bool) (bf fuel tick x y : Nat) (st : SolverState)
    (out : SolverState × Nat) :
    (backtrack tu bf fuel tick x y st = .ok out →
      out.1.grid = st.grid ∧ out.1.tiles = st.tiles) ∧
    (∀ (w hh : Nat) (g : List Coord) (sp : List (Coord × Int))
       (tl : List (String × (Int × Int))) (out1 : SolverState × Nat),
       backtrack tu bf fuel tick 0 0 (init w hh g sp tl) = .ok out1 →
       out1.1.grid = (fun _ => none) ∧ out1.1.tiles = tl) ∧
    (∀ (a b : Int) (tid : String) (r : SolverState × Bool),
      place_tile st a b tid = some r → tilesNonneg st.tiles → tilesNonneg r.1.tiles) ∧
    (∀ (a b : Int) (st2 : SolverState),
      remove_tile st a b = some st2 → tilesNonneg st.tiles → tilesNonneg st2.tiles) := by
  refine ⟨backtrack_preserves tu bf fuel tick x y st out, ?_, ?_, ?_⟩
  · intro w hh g sp tl out1 h
    exact backtrack_preserves tu bf fuel tick 0 0 (init w hh g sp tl) out1 h
  · intro a b tid r h hn
    obtain ⟨r1, b2⟩ := r
    cases b2 with
    | false =>
      rw [place_tile_false h rfl]
      exact hn
    | true =>
      rcases place_tile_true h with ⟨cc, hlt, hpos, _, _, _, hst1⟩
      rw [hst1]
      intro en hen
      rcases setKV_mem hen with hen | hen
      · exact hn en hen
      · rw [hen]
        show (0 : Int) ≤ cc.2 - 1
        omega
  · intro a b st2 h hn
    unfold remove_tile at h
    cases hg : st.grid (a, b) with
    | none =>
      rw [hg] at h
      cases h
      exact hn
    | some tid =>
      rw [hg] at h
      dsimp only at h
      cases hl : lookupKV st.tiles tid with
      | none => rw [hl] at h; cases h
      | some cc =>
        rw [hl] at h
        dsimp only at h
        cases h
        intro en hen
        rcases setKV_mem hen with hen | hen
        · exact hn en hen
        · rw [hen]
          have hmem := lookupKV_mem hl
          have h7 : (0 : Int) ≤ cc.2 := hn (tid, cc) hmem
          show (0 : Int) ≤ cc.2 + 1
          omega

theorem claim_C8_witness :
    ((init 1 1 [] [] [("C", ((2 : Int), (1 : Int)))]).grid =
        (init 1 1 [] [] [("C", (2, 1))]).grid ∧
      (init 1 1 [] [] [("C", ((2 : Int), (1 : Int)))]).tiles =
        (init 1 1 [] [] [("C", (2, 1))]).tiles) ∧
    tilesNonneg [("C", ((2 : Int), (0 : Int)))] ∧
    tilesNonneg [("C", ((2 : Int), (2 : Int)))] :=
  ⟨(claim_C8 (fun _ => true) 1 1 0 0 0 (init 1 1 [] [] [("C", (2, 1))])
      (init 1 1 [] [] [("C", (2, 1))], 1)).1 rfl,
   (claim_C8 (fun _ => true) 1 1 0 0 0 (init 1 1 [] [] [("C", (2, 1))])
      (init 1 1 [] [] [("C", (2, 1))], 1)).2.2.1 0 0 "C"
      ({ init 1 1 [] [] [("C", (2, 1))] with
           grid := Function.update (init 1 1 [] [] [("C", (2, 1))]).grid (0, 0) (some "C")
           tiles := [("C", (2, 0))] }, true)
      rfl (by unfold tilesNonneg; decide),
   (claim_C8 (fun _ => true) 1 1 0 0 0
      { init 1 1 [] [] [("C", ((2 : Int), (1 : Int)))] with
          grid := fun _ => some "C" }
      ({ init 1 1 [] [] [("C", (2, 1))] with grid := fun _ => some "C" }, 1)).2.2.2 0 0
      { init 1 1 [] [] [("C", (2, 1))] with
          grid := Function.update (fun _ => some "C") ((0 : Int), (0 : Int)) none
          tiles := [("C", (2, 2))] }
      rfl (by unfold tilesNonneg; decide)⟩

/-! ### Claim C3 -/

/-- Claim C3 counterexample: the constructor performs no validation of
tile identifiers against `TILE_DIRECTIONS` and rejects nothing — an
inventory entry `"Z"` absent from the catalog is stored as supplied — and
the direction-set lookup performed during traversal then fails (the
`KeyError` of `TILE_DIRECTIONS[tile_id]`) once such a tile is placed and
reached, contradicting the claimed rejection and the claimed
impossibility of a lookup failure. -/
theorem claim_C3_counterexample :
    (init 2 1 [] [] [("Z", ((1 : Int), (1 : Int)))]).tiles = [("Z", (1, 1))] ∧
    TILE_DIRECTIONS "Z" = none ∧
    Option.map (fun r => bfs r.1 5 (0, 0) (0, 1))
        (place_tile (init 2 1 [] [] [("Z", ((1 : Int), (1 : Int)))]) 0 0 "Z") =
      some (.error Err.keyError) := by
  refine ⟨rfl, rfl, ?_⟩
  decide

/-- Claim C3 (amended): input tile identifiers are not validated against
the static catalog — the constructor stores the inventory exactly as
supplied, with no check and no rejection — and consequently the
direction-set lookup performed during traversal does fail (KeyError) for a
placed tile whose identifier is absent from the catalog. -/
theorem claim_C3 :
    (∀ (w hh : Nat) (g : List Coord) (sp : List (Coord × Int))
       (tl : List (String × (Int × Int))), (init w hh g sp tl).tiles = tl) ∧
    Option.map (fun r => bfs r.1 1 (0, 0) (0, 1))
        (place_tile (init 2 1 [] [] [("Z", ((1 : Int), (1 : Int)))]) 0 0 "Z") =
      some (.error Err.keyError) := by
  refine ⟨fun w hh g sp tl => rfl, ?_⟩
  decide

end Reply
